import Mathlib

/-!
# EcoVision AI — Model Validation & Benchmarking Harness: verification development

Shallow embedding of the testing harness of `model_tester.py` and
`model_validation.py`.  Numeric arrays are modelled as flattened lists of
rationals (`ℚ`); the opaque Model Runtime, random sources, the clock and the
memory probe are oracle parameters; fallible calls return `Option`/`Except`.
`np.std`/`np.sqrt` is modelled through an abstract square-root routine
`sqrtQ : ℚ → ℚ` passed explicitly (its value is irrelevant to every property
proved here).
-/

namespace EcoVision

/-- Element dtypes supported by the harness (`np.float32` and `np.uint8`). -/
inductive Dtype where
  | float32
  | uint8
deriving DecidableEq, Repr

/-- A materialized numpy array: its shape and its row-major flattened data,
elements modelled as rationals. -/
structure Tensor where
  shape : List Nat
  data : List ℚ
deriving DecidableEq, Repr

/-- Number of elements of an array of the given shape. -/
def numel (shape : List Nat) : Nat := shape.prod

/-- `np.zeros(shape, dtype)`. -/
def zerosTensor (shape : List Nat) : Tensor :=
  ⟨shape, List.replicate (numel shape) 0⟩

/-- `np.ones(shape, dtype)`. -/
def onesTensor (shape : List Nat) : Tensor :=
  ⟨shape, List.replicate (numel shape) 1⟩

/-- `np.full(shape, v, dtype)`. -/
def fullTensor (shape : List Nat) (v : ℚ) : Tensor :=
  ⟨shape, List.replicate (numel shape) v⟩

/-- Integer part of a rational, truncating toward zero (C-style cast). -/
def truncInt (q : ℚ) : Int := q.num / q.den

/-- `ndarray.astype(dtype)` on one element: identity for float32, C-style
truncation followed by wrap-around modulo 256 for uint8. -/
def castDtype : Dtype → ℚ → ℚ
  | .float32, q => q
  | .uint8, q => ((truncInt q % 256 : Int) : ℚ)

/-- `np.clip(x, 0, 1)` on one element. -/
def clip01 (q : ℚ) : ℚ := min 1 (max 0 q)

/-- `np.mean` over a flattened array. -/
def npMean (l : List ℚ) : ℚ := l.sum / l.length

/-- `np.min` over a non-empty flattened array (0 for the empty array, which
numpy rejects). -/
def npMin : List ℚ → ℚ
  | [] => 0
  | x :: xs => xs.foldl min x

/-- `np.max` over a non-empty flattened array. -/
def npMax : List ℚ → ℚ
  | [] => 0
  | x :: xs => xs.foldl max x

/-- `np.var` (population variance, `ddof=0`) over a flattened array. -/
def npVar (l : List ℚ) : ℚ := npMean (l.map (fun x => (x - npMean l) ^ 2))

/-- `np.std` over a flattened array, through the abstract square root. -/
def npStd (sqrtQ : ℚ → ℚ) (l : List ℚ) : ℚ := sqrtQ (npVar l)

/-- Linear interpolation step of `np.percentile`: value at fractional index
`h` into the ascending-sorted array `s` (numpy's default `linear` method). -/
def interpAt (s : List ℚ) (h : ℚ) : ℚ :=
  let i := (⌊h⌋).toNat
  let lo := s.getD i 0
  let hi := s.getD (min (i + 1) (s.length - 1)) 0
  lo + (h - (i : ℚ)) * (hi - lo)

/-- `np.percentile(l, q)` with the default linear interpolation: sort
ascending, then interpolate at fractional index `q/100 * (n-1)`. -/
def npPercentile (l : List ℚ) (q : ℚ) : ℚ :=
  let s := l.insertionSort (· ≤ ·)
  interpAt s (q / 100 * ((s.length : ℚ) - 1))

/-- `np.median(l)`, which equals the 50th linear-interpolation percentile. -/
def npMedian (l : List ℚ) : ℚ := npPercentile l 50

/-- `np.argmax` over a flattened array: index of the first maximal element. -/
def npArgmax (l : List ℚ) : Nat :=
  (l.foldl
    (fun (acc : Nat × Nat × ℚ) x =>
      if acc.2.2 < x then (acc.2.1, acc.2.1 + 1, x) else (acc.1, acc.2.1 + 1, acc.2.2))
    (0, 0, l.headD 0)).1

/-- `output[0]`: the first batch row of a tensor, as a flattened list. -/
def firstRow (t : Tensor) : List ℚ := t.data.take (numel t.shape.tail)

/-! ## Synthetic Input Generator (`ModelTester.test_input_variations`, dict build)

The random draws (`np.random.rand`, `np.random.randn`, `np.random.randint`)
are oracle lists supplied by the caller; the generator applies the source's
clipping/casting to them. -/

/-- The `test_patterns` mapping of `ModelTester.test_input_variations`
(`model_tester.py` lines 97–108), in insertion order.  The base dict holds
`zeros`, `ones`, `random_uniform`, `random_normal`; for uint8 inputs
`max_values` is all-255 and `random_uniform` is replaced (in place) by integer
draws, otherwise `max_values` is all-one. -/
def testPatterns (shape : List Nat) (dtype : Dtype)
    (uniform normal randint : List ℚ) : List (String × Tensor) :=
  if dtype = .uint8 then
    [("zeros", zerosTensor shape),
     ("ones", onesTensor shape),
     ("random_uniform", ⟨shape, randint⟩),
     ("random_normal", ⟨shape, normal.map (fun q => castDtype dtype (clip01 q))⟩),
     ("max_values", fullTensor shape 255)]
  else
    [("zeros", zerosTensor shape),
     ("ones", onesTensor shape),
     ("random_uniform", ⟨shape, uniform.map (castDtype dtype)⟩),
     ("random_normal", ⟨shape, normal.map (fun q => castDtype dtype (clip01 q))⟩),
     ("max_values", onesTensor shape)]

/-- Per-pattern outcome recorded by the Variation Prober: the success branch
keeps the output summary, the failure branch keeps `str(e)`.  (The source's
dict keys `success`, `output_*`, `top_class`, `top_confidence`, `error` map to
the constructor fields; `topIdx`/`topConf` stand for `top_class` and
`top_confidence`.) -/
inductive PatternOutcome where
  | ok (output_shape : List Nat) (output_mean output_std output_min output_max : ℚ)
      (topIdx : Option Nat) (topConf : Option ℚ)
  | failed (error : String)
deriving DecidableEq, Repr

/-- The `success` flag of a recorded outcome. -/
def PatternOutcome.success : PatternOutcome → Bool
  | .ok _ _ _ _ _ _ _ => true
  | .failed _ => false

/-- The recorded `top_class` field (absent on failure). -/
def PatternOutcome.topIdx : PatternOutcome → Option Nat
  | .ok _ _ _ _ _ c _ => c
  | .failed _ => none

/-- The recorded `top_confidence` field (absent on failure). -/
def PatternOutcome.topConf : PatternOutcome → Option ℚ
  | .ok _ _ _ _ _ _ c => c
  | .failed _ => none

/-- Body of the per-pattern loop of `ModelTester.test_input_variations`
(lines 110–130): run one inference, and on success record output shape and
summary statistics plus, when the output has rank > 1, the argmax index and
max value of the first batch row; any raised error is caught and recorded. -/
def evalPattern (sqrtQ : ℚ → ℚ) (infer : Tensor → Except String Tensor)
    (t : Tensor) : PatternOutcome :=
  match infer t with
  | .error e => .failed e
  | .ok out =>
      .ok out.shape (npMean out.data) (npStd sqrtQ out.data)
        (npMin out.data) (npMax out.data)
        (if 1 < out.shape.length then some (npArgmax (firstRow out)) else none)
        (if 1 < out.shape.length then some (npMax (firstRow out)) else none)

/-- `ModelTester.test_input_variations` (lines 89–132): evaluate every test
pattern, isolating failures to their own entry. -/
def test_input_variations (sqrtQ : ℚ → ℚ) (infer : Tensor → Except String Tensor)
    (shape : List Nat) (dtype : Dtype)
    (uniform normal randint : List ℚ) : List (String × PatternOutcome) :=
  (testPatterns shape dtype uniform normal randint).map
    (fun p => (p.1, evalPattern sqrtQ infer p.2))

/-! ## Stability Checker (`ModelTester.test_numerical_stability`) -/

/-- One element of `np.isclose(a, b, rtol, atol)`:
`|a - b| <= atol + rtol * |b|`. -/
def isCloseQ (rtol atol a b : ℚ) : Bool := |a - b| ≤ atol + rtol * |b|

/-- `np.allclose` of two equally-shaped flattened arrays. -/
def allcloseList (rtol atol : ℚ) (a b : List ℚ) : Bool :=
  (a.zip b).all (fun p => isCloseQ rtol atol p.1 p.2)

/-- `np.var(outputs, axis=0)`: per-element variance across the collected
runs, flattened. -/
def perElementVariance (outs : List (List ℚ)) : List ℚ :=
  (List.range (outs.headD []).length).map
    (fun j => npVar (outs.map (fun o => o.getD j 0)))

/-- Result dict of `ModelTester.test_numerical_stability`. -/
structure StabilityResult where
  num_tests : Nat
  is_deterministic : Bool
  max_variance : ℚ
  mean_variance : ℚ
  output_std : ℚ
  coefficient_of_variation : ℚ
deriving DecidableEq, Repr

/-- `ModelTester.test_numerical_stability` (lines 170–207).  The fixed seeded
input is set on the runtime before every invocation; `runOut k` is the
(flattened) output the runtime returns on the k-th invocation.
`is_deterministic` is `np.allclose(outputs[0], outputs[1:], rtol=1e-7,
atol=1e-7)`; the coefficient of variation is guarded against a zero mean. -/
def test_numerical_stability (sqrtQ : ℚ → ℚ) (runOut : Nat → List ℚ)
    (num_tests : Nat) : StabilityResult :=
  let outputs := (List.range num_tests).map runOut
  let flat := outputs.flatten
  let pev := perElementVariance outputs
  { num_tests := num_tests
    is_deterministic :=
      outputs.tail.all (fun b => allcloseList (1 / 10 ^ 7) (1 / 10 ^ 7) (outputs.headD []) b)
    max_variance := npMax pev
    mean_variance := npMean pev
    output_std := npStd sqrtQ flat
    coefficient_of_variation :=
      if npMean flat ≠ 0 then npStd sqrtQ flat / npMean flat else 0 }

/-! ## Benchmark Engine (`ModelTester.test_inference_speed`) -/

/-- Result dict of `ModelTester.test_inference_speed` (`LatencyStats`). -/
structure LatencyStats where
  num_iterations : Nat
  mean_time_ms : ℚ
  std_time_ms : ℚ
  min_time_ms : ℚ
  max_time_ms : ℚ
  median_time_ms : ℚ
  fps : ℚ
  percentile_95_ms : ℚ
  percentile_99_ms : ℚ
deriving DecidableEq, Repr

/-- `ModelTester.test_inference_speed` (lines 49–87).  `elapsed k` is the
perf-counter difference measured around the k-th timed single-inference call;
the `warmup_iterations` preceding inferences are run untimed and contribute
nothing to the statistics. -/
def test_inference_speed (sqrtQ : ℚ → ℚ) (elapsed : Nat → ℚ)
    (num_iterations : Nat) (warmup_iterations : Nat) : LatencyStats :=
  let _ := warmup_iterations
  let times := (List.range num_iterations).map elapsed
  { num_iterations := num_iterations
    mean_time_ms := npMean times * 1000
    std_time_ms := npStd sqrtQ times * 1000
    min_time_ms := npMin times * 1000
    max_time_ms := npMax times * 1000
    median_time_ms := npMedian times * 1000
    fps := 1 / npMean times
    percentile_95_ms := npPercentile times 95 * 1000
    percentile_99_ms := npPercentile times 99 * 1000 }

/-! ## Memory Profiler (`ModelTester.test_memory_usage`) -/

/-- Result dict of `ModelTester.test_memory_usage`. -/
structure MemoryResult where
  baseline_memory_mb : ℚ
  peak_memory_mb : ℚ
  memory_increase_mb : ℚ
  memory_samples : List ℚ
deriving DecidableEq, Repr

/-- `ModelTester.test_memory_usage` (lines 134–168): 50 inferences, resident
memory sampled at every 10th iteration (`memAt i` is the probe's reading at
iteration `i`); baseline taken before the loop. -/
def test_memory_usage (baseline : ℚ) (memAt : Nat → ℚ) : MemoryResult :=
  let samples := ((List.range 50).filter (fun i => i % 10 = 0)).map memAt
  { baseline_memory_mb := baseline
    peak_memory_mb := npMax samples
    memory_increase_mb := npMax samples - baseline
    memory_samples := samples }

/-! ## Synthetic audio data and the audio preprocessor (`model_validation.py`) -/

/-- `create_sample_audio_data` (`model_validation.py` lines 71–81): standard
normal data for shapes of rank 2, 3 or 4; any other rank is rejected — the
function prints a diagnostic and returns `None` (embedded as `none`), which
every caller treats as the failure signal.  `randn` is the oracle list of
`np.random.randn` draws. -/
def create_sample_audio_data (shape : List Nat) (randn : List ℚ) : Option Tensor :=
  if shape.length = 2 then some ⟨shape, randn⟩
  else if shape.length = 3 then some ⟨shape, randn⟩
  else if shape.length = 4 then some ⟨shape, randn⟩
  else none

/-- The pad-or-truncate of one mel-spectrogram row (one mel bin's time
series) to `tSteps` columns (`model_validation.py` lines 120–124): truncate
when the row is longer than `tSteps`, otherwise pad with zeros on the right. -/
def padTruncRow (tSteps : Nat) (row : List ℚ) : List ℚ :=
  if tSteps < row.length then row.take tSteps
  else row ++ List.replicate (tSteps - row.length) 0

/-- `ndarray.T` of a rectangular 2-D array given as a list of rows: column
`j` of the input becomes row `j` of the output (the column count is read off
the first row, as in a rectangular numpy array). -/
def transposeM (rows : List (List ℚ)) : List (List ℚ) :=
  (List.range (rows.headD []).length).map (fun j => rows.map (fun r => r.getD j 0))

/-- The two result layouts of `preprocess_audio_for_model`: shape
`(1, n_mfcc)` for a rank-2 target, shape `(1, T, n_mels)` for a rank-3
target. -/
inductive AudioOut where
  | rank2 (data : List (List ℚ))
  | rank3 (data : List (List (List ℚ)))
deriving DecidableEq, Repr

/-- `preprocess_audio_for_model` (`model_validation.py` lines 105–130).
The librosa feature extractors are oracles: `mfcc` is the
`librosa.feature.mfcc(..., n_mfcc=target[1])` matrix (one row per
coefficient), `mel` the `librosa.feature.melspectrogram(..., n_mels=target[2])`
matrix (one row per mel bin, one column per raw time step).  Rank 2: average
the MFCC matrix over time and add a batch dimension.  Rank 3: pad or truncate
the mel spectrogram along time to `target[1]` steps, transpose, add a batch
dimension.  Any other target rank raises `ValueError`.  The result is cast to
float32. -/
def preprocess_audio_for_model (target : List Nat)
    (mfcc mel : List (List ℚ)) : Except String (AudioOut × Dtype) :=
  if target.length = 2 then
    .ok (.rank2 [mfcc.map npMean], .float32)
  else if target.length = 3 then
    .ok (.rank3 [transposeM (mel.map (padTruncRow (target.getD 1 0)))], .float32)
  else
    .error "Unsupported audio target shape"

/-! ## Model Inspector and Report Aggregator (`ModelTester`) -/

/-- The dict returned by `ModelTester.get_model_info` (lines 36–47): tensor
contract of the loaded model plus file metadata. -/
structure ModelInfo where
  model_path : String
  input_shape : List Nat
  input_dtype : Dtype
  output_shape : List Nat
  output_dtype : Dtype
  model_size_mb : ℚ
  num_inputs : Nat
  num_outputs : Nat
deriving Repr

/-- A value stored in the generated report's (ordered) key-value structure. -/
inductive ReportValue where
  | info (v : ModelInfo)
  | stamp (s : String)
  | speed (v : LatencyStats)
  | variations (v : List (String × PatternOutcome))
  | memory (v : MemoryResult)
  | memoryError (msg : String)
  | stability (v : StabilityResult)
  | tests (kvs : List (String × ReportValue))

/-- `ModelTester.generate_test_report` (lines 209–244), as the ordered
key-value document it builds.  Taking the oracles of the individual checks as
parameters: `elapsed` for the benchmark clock, `infer` for the Variation
Prober's runtime calls, the three random sources, `memProbe` (which is
`Except.error ()` exactly when importing the memory-introspection facility
raises `ImportError` — the only exception the source catches around the
memory check), and `runOut` for the Stability Checker's collected outputs.
The individual checks run with the source's default arguments
(`num_iterations=100`, `warmup=10`, stability `num_tests=10`). -/
def generate_test_report (sqrtQ : ℚ → ℚ) (info : ModelInfo) (timestamp : String)
    (elapsed : Nat → ℚ) (infer : Tensor → Except String Tensor)
    (uniform normal randint : List ℚ)
    (memProbe : Except Unit (ℚ × (Nat → ℚ)))
    (runOut : Nat → List ℚ) : List (String × ReportValue) :=
  [("model_info", .info info),
   ("timestamp", .stamp timestamp),
   ("tests",
    .tests
      [("speed", .speed (test_inference_speed sqrtQ elapsed 100 10)),
       ("input_variations",
        .variations
          (test_input_variations sqrtQ infer info.input_shape info.input_dtype
            uniform normal randint)),
       ("memory",
        match memProbe with
        | .ok p => .memory (test_memory_usage p.1 p.2)
        | .error _ => .memoryError "psutil not available"),
       ("stability", .stability (test_numerical_stability sqrtQ runOut 10))])]

/-! ## Helper lemmas -/

theorem lookup_map_of_nodup_keys {β γ : Type} (g : β → γ) :
    ∀ (l : List (String × β)) (name : String) (t : β),
      (l.map Prod.fst).Nodup → (name, t) ∈ l →
      (l.map (fun p => (p.1, g p.2))).lookup name = some (g t) := by
  intro l
  induction l with
  | nil => intro name t _ hm; cases hm
  | cons hd rest ih =>
    intro name t hnd hm
    rw [List.map_cons, List.nodup_cons] at hnd
    rcases List.mem_cons.mp hm with heq | hmem
    · rcases Prod.mk.injEq _ _ _ _ ▸ heq with ⟨h1, h2⟩
      subst h1; subst h2
      simp [List.lookup]
    · have hne : name ≠ hd.1 := by
        intro hcontra
        exact hnd.1 (hcontra ▸ List.mem_map_of_mem Prod.fst hmem)
      simp only [List.map_cons, List.lookup]
      rw [beq_eq_false_iff_ne.mpr hne]
      exact ih name t hnd.2 hmem

theorem lookup_map_isSome_of_mem_keys {β γ : Type} (g : β → γ) :
    ∀ (l : List (String × β)) (name : String),
      name ∈ l.map Prod.fst →
      ((l.map (fun p => (p.1, g p.2))).lookup name).isSome = true := by
  intro l
  induction l with
  | nil => intro name hm; cases hm
  | cons hd rest ih =>
    intro name hm
    by_cases hne : name = hd.1
    · simp [List.lookup, hne]
    · simp only [List.map_cons, List.lookup]
      rw [beq_eq_false_iff_ne.mpr hne]
      rcases List.mem_cons.mp hm with heq | hmem
      · exact absurd heq hne
      · exact ih name hmem

theorem testPatterns_keys (shape : List Nat) (dtype : Dtype)
    (uniform normal randint : List ℚ) :
    (testPatterns shape dtype uniform normal randint).map Prod.fst
      = ["zeros", "ones", "random_uniform", "random_normal", "max_values"] := by
  unfold testPatterns
  split <;> rfl

theorem testPatterns_keys_nodup (shape : List Nat) (dtype : Dtype)
    (uniform normal randint : List ℚ) :
    ((testPatterns shape dtype uniform normal randint).map Prod.fst).Nodup := by
  rw [testPatterns_keys]
  decide

/-! ## Claim theorems -/

/-- C5: for every shape whose rank is not 2, 3, or 4, audio-style synthetic
input generation signals the error (the source returns `None`, its failure
signal) rather than producing data. -/
theorem audio_sample_bad_rank_none (shape : List Nat) (randn : List ℚ)
    (h2 : shape.length ≠ 2) (h3 : shape.length ≠ 3) (h4 : shape.length ≠ 4) :
    create_sample_audio_data shape randn = none := by
  simp [create_sample_audio_data, h2, h3, h4]

theorem audio_sample_bad_rank_none_witness :
    ([1, 1, 1, 1, 1] : List Nat).length ≠ 2 ∧
    ([1, 1, 1, 1, 1] : List Nat).length ≠ 3 ∧
    ([1, 1, 1, 1, 1] : List Nat).length ≠ 4 ∧
    create_sample_audio_data [1, 1, 1, 1, 1] [0] = none :=
  ⟨by decide, by decide, by decide,
    audio_sample_bad_rank_none _ _ (by decide) (by decide) (by decide)⟩

/-- C6: for every supported (shape, dtype) pair, the generated `zeros`
pattern is a tensor all of whose elements are the dtype's zero value `0`, and
the `ones` pattern a tensor all of whose elements are the dtype's one value
`1`. -/
theorem patterns_zeros_ones (shape : List Nat) (dtype : Dtype)
    (uniform normal randint : List ℚ) :
    ∃ tz tone : Tensor,
      (testPatterns shape dtype uniform normal randint).lookup "zeros" = some tz ∧
      (∀ x ∈ tz.data, x = 0) ∧
      (testPatterns shape dtype uniform normal randint).lookup "ones" = some tone ∧
      (∀ x ∈ tone.data, x = 1) := by
  refine ⟨zerosTensor shape, onesTensor shape, ?_, ?_, ?_, ?_⟩
  · cases dtype <;> rfl
  · intro x hx; exact List.eq_of_mem_replicate hx
  · cases dtype <;> rfl
  · intro x hx; exact List.eq_of_mem_replicate hx

theorem patterns_zeros_ones_witness :
    ∃ tz tone : Tensor,
      (testPatterns [2] .float32 [] [] []).lookup "zeros" = some tz ∧
      (∀ x ∈ tz.data, x = 0) ∧
      (testPatterns [2] .float32 [] [] []).lookup "ones" = some tone ∧
      (∀ x ∈ tone.data, x = 1) :=
  patterns_zeros_ones [2] .float32 [] [] []

/-- C8: every generated test report has exactly the top-level keys
`model_info`, `timestamp`, `tests`, in that order, and its `tests` section has
exactly the sub-keys `speed`, `input_variations`, `memory`, `stability` (no
`accuracy` entry is produced, consistent with it being optional). -/
theorem report_structure (sqrtQ : ℚ → ℚ) (info : ModelInfo) (timestamp : String)
    (elapsed : Nat → ℚ) (infer : Tensor → Except String Tensor)
    (uniform normal randint : List ℚ) (memProbe : Except Unit (ℚ × (Nat → ℚ)))
    (runOut : Nat → List ℚ) :
    (generate_test_report sqrtQ info timestamp elapsed infer uniform normal randint
        memProbe runOut).map Prod.fst = ["model_info", "timestamp", "tests"] ∧
    ∃ tkvs,
      (generate_test_report sqrtQ info timestamp elapsed infer uniform normal randint
          memProbe runOut).lookup "tests" = some (.tests tkvs) ∧
      tkvs.map Prod.fst = ["speed", "input_variations", "memory", "stability"] :=
  ⟨rfl, _, rfl, rfl⟩

/-- C7: when the memory-introspection facility is unavailable (its import
raises `ImportError`), the report records the memory check as an error entry
and all other checks — speed, input variations and stability — still run and
appear in the report. -/
theorem report_memory_unavailable (sqrtQ : ℚ → ℚ) (info : ModelInfo)
    (timestamp : String) (elapsed : Nat → ℚ) (infer : Tensor → Except String Tensor)
    (uniform normal randint : List ℚ) (runOut : Nat → List ℚ) :
    ∃ tkvs,
      (generate_test_report sqrtQ info timestamp elapsed infer uniform normal randint
          (Except.error ()) runOut).lookup "tests" = some (.tests tkvs) ∧
      tkvs.lookup "memory" = some (.memoryError "psutil not available") ∧
      tkvs.lookup "speed" = some (.speed (test_inference_speed sqrtQ elapsed 100 10)) ∧
      tkvs.lookup "input_variations"
          = some (.variations (test_input_variations sqrtQ infer info.input_shape
              info.input_dtype uniform normal randint)) ∧
      tkvs.lookup "stability"
          = some (.stability (test_numerical_stability sqrtQ runOut 10)) :=
  ⟨_, rfl, rfl, rfl, rfl, rfl⟩

/-- C9: the coefficient of variation reported by the stability check is `0`
whenever the mean over all collected outputs is `0`, and equals the overall
standard deviation divided by that mean otherwise — the division is guarded
and never performed at a zero mean. -/
theorem stability_cov_guard (sqrtQ : ℚ → ℚ) (runOut : Nat → List ℚ)
    (num_tests : Nat) :
    (npMean (((List.range num_tests).map runOut).flatten) = 0 →
      (test_numerical_stability sqrtQ runOut num_tests).coefficient_of_variation = 0) ∧
    (npMean (((List.range num_tests).map runOut).flatten) ≠ 0 →
      (test_numerical_stability sqrtQ runOut num_tests).coefficient_of_variation
        = npStd sqrtQ (((List.range num_tests).map runOut).flatten)
            / npMean (((List.range num_tests).map runOut).flatten)) := by
  constructor <;> intro h <;> simp [test_numerical_stability, h]

theorem stability_cov_guard_witness :
    (npMean (((List.range 2).map (fun _ => [(0 : ℚ)])).flatten) = 0 ∧
      (test_numerical_stability id (fun _ => [(0 : ℚ)]) 2).coefficient_of_variation = 0) ∧
    (npMean (((List.range 2).map (fun _ => [(1 : ℚ)])).flatten) ≠ 0 ∧
      (test_numerical_stability id (fun _ => [(1 : ℚ)]) 2).coefficient_of_variation
        = npStd id (((List.range 2).map (fun _ => [(1 : ℚ)])).flatten)
            / npMean (((List.range 2).map (fun _ => [(1 : ℚ)])).flatten)) := by
  constructor
  · exact ⟨by norm_num [npMean], (stability_cov_guard id (fun _ => [(0 : ℚ)]) 2).1
      (by norm_num [npMean])⟩
  · exact ⟨by norm_num [npMean], (stability_cov_guard id (fun _ => [(1 : ℚ)]) 2).2
      (by norm_num [npMean])⟩

/-- C3: in the variation prober, a pattern whose inference raises an
`InferenceError` is recorded with `success = false` together with the error
message, and the returned mapping still has an entry for every pattern — one
failure does not abort the rest. -/
theorem variation_failure_isolated (sqrtQ : ℚ → ℚ)
    (infer : Tensor → Except String Tensor) (shape : List Nat) (dtype : Dtype)
    (uniform normal randint : List ℚ) (name : String) (t : Tensor) (e : String)
    (hmem : (name, t) ∈ testPatterns shape dtype uniform normal randint)
    (herr : infer t = .error e) :
    (test_input_variations sqrtQ infer shape dtype uniform normal randint).lookup name
        = some (.failed e) ∧
    ∀ other ∈ (testPatterns shape dtype uniform normal randint).map Prod.fst,
      ((test_input_variations sqrtQ infer shape dtype uniform normal
          randint).lookup other).isSome = true := by
  constructor
  · have h := lookup_map_of_nodup_keys (evalPattern sqrtQ infer)
      (testPatterns shape dtype uniform normal randint) name t
      (testPatterns_keys_nodup shape dtype uniform normal randint) hmem
    rw [test_input_variations, h]
    simp [evalPattern, herr]
  · intro other hother
    rw [test_input_variations]
    exact lookup_map_isSome_of_mem_keys _ _ _ hother

theorem variation_failure_isolated_witness :
    (("zeros", zerosTensor [1]) ∈ testPatterns [1] .float32 [] [] []) ∧
    ((test_input_variations id (fun _ => .error "boom") [1] .float32
        [] [] []).lookup "zeros" = some (.failed "boom") ∧
      ∀ other ∈ (testPatterns [1] .float32 [] [] []).map Prod.fst,
        ((test_input_variations id (fun _ => .error "boom") [1] .float32
            [] [] []).lookup other).isSome = true) :=
  ⟨List.mem_cons_self _ _,
    variation_failure_isolated id (fun _ => .error "boom") [1] .float32 [] [] []
      "zeros" (zerosTensor [1]) "boom" (List.mem_cons_self _ _) rfl⟩

/-- C10: in the variation prober, a pattern whose inference succeeds with a
rank-1 output is still recorded with `success = true`, with the `top_class`
and `top_confidence` fields set to null. -/
theorem variation_rank1_null_top (sqrtQ : ℚ → ℚ)
    (infer : Tensor → Except String Tensor) (shape : List Nat) (dtype : Dtype)
    (uniform normal randint : List ℚ) (name : String) (t : Tensor) (out : Tensor)
    (hmem : (name, t) ∈ testPatterns shape dtype uniform normal randint)
    (hok : infer t = .ok out) (hrank : out.shape.length = 1) :
    ∃ res,
      (test_input_variations sqrtQ infer shape dtype uniform normal
          randint).lookup name = some res ∧
      res.success = true ∧ res.topIdx = none ∧ res.topConf = none := by
  refine ⟨evalPattern sqrtQ infer t, ?_, ?_, ?_, ?_⟩
  · rw [test_input_variations]
    exact lookup_map_of_nodup_keys (evalPattern sqrtQ infer)
      (testPatterns shape dtype uniform normal randint) name t
      (testPatterns_keys_nodup shape dtype uniform normal randint) hmem
  · simp [evalPattern, hok, PatternOutcome.success]
  · simp [evalPattern, hok, hrank, PatternOutcome.topIdx]
  · simp [evalPattern, hok, hrank, PatternOutcome.topConf]

theorem variation_rank1_null_top_witness :
    (("zeros", zerosTensor [1]) ∈ testPatterns [1] .float32 [] [] []) ∧
    ((Tensor.mk [3] [1, 2, 3]).shape.length = 1) ∧
    ∃ res,
      (test_input_variations id (fun _ => .ok (Tensor.mk [3] [1, 2, 3])) [1]
          .float32 [] [] []).lookup "zeros" = some res ∧
      res.success = true ∧ res.topIdx = none ∧ res.topConf = none :=
  ⟨List.mem_cons_self _ _, by decide,
    variation_rank1_null_top id (fun _ => .ok (Tensor.mk [3] [1, 2, 3])) [1]
      .float32 [] [] [] "zeros" (zerosTensor [1]) (Tensor.mk [3] [1, 2, 3])
      (List.mem_cons_self _ _) rfl (by decide)⟩

theorem padTruncRow_length (tSteps : Nat) (row : List ℚ) :
    (padTruncRow tSteps row).length = tSteps := by
  unfold padTruncRow
  split
  · simp
    omega
  · simp
    omega

theorem padTruncRow_getD (tSteps : Nat) (row : List ℚ) {t : Nat} (ht : t < tSteps) :
    (padTruncRow tSteps row).getD t 0
      = if t < row.length then row.getD t 0 else 0 := by
  unfold padTruncRow
  split
  · rename_i h
    rw [if_pos (lt_trans ht h)]
    simp [List.getD_eq_getElem?_getD, List.getElem?_take_of_lt ht]
  · rename_i h
    push_neg at h
    by_cases hr : t < row.length
    · rw [if_pos hr]
      simp [List.getD_eq_getElem?_getD, List.getElem?_append, hr]
    · rw [if_neg hr]
      push_neg at hr
      rw [List.getD_eq_getElem?_getD, List.getElem?_append_right hr,
        List.getElem?_replicate, if_pos (by omega)]
      rfl

theorem getD_map_range {α : Type} (n : Nat) (g : Nat → α) (d : α) {t : Nat}
    (ht : t < n) : ((List.range n).map g).getD t d = g t := by
  rw [List.getD_eq_getElem?_getD, List.getElem?_map, List.getElem?_range ht]
  rfl

theorem getD_map_of_lt {α β : Type} (l : List α) (f : α → β) (d : β) (dd : α)
    {i : Nat} (hi : i < l.length) : (l.map f).getD i d = f (l.getD i dd) := by
  rw [List.getD_eq_getElem?_getD, List.getElem?_map, List.getElem?_eq_getElem hi,
    List.getD_eq_getElem?_getD, List.getElem?_eq_getElem hi]
  rfl

/-- C4: for a rank-3 target shape, the audio preprocessor yields a float32
output with a leading batch dimension of 1 whose time dimension is exactly
the target's time-step count `T = target[1]`: entries at time steps below the
raw spectrogram's length are the (transposed) spectrogram entries —
truncation when the raw feature is longer than `T` — and entries at later
time steps are zero padding. -/
theorem audio_rank3_pad_truncate (target : List Nat) (mfcc mel : List (List ℚ))
    (traw : Nat) (hrank : target.length = 3)
    (hmels : mel.length = target.getD 2 0) (hpos : 0 < mel.length)
    (hrect : ∀ row ∈ mel, row.length = traw) :
    ∃ d : List (List (List ℚ)),
      preprocess_audio_for_model target mfcc mel
          = .ok (.rank3 d, .float32) ∧
      d.length = 1 ∧
      (d.getD 0 []).length = target.getD 1 0 ∧
      (∀ row ∈ d.getD 0 [], row.length = target.getD 2 0) ∧
      (∀ t < target.getD 1 0, ∀ f < target.getD 2 0,
        ((d.getD 0 []).getD t []).getD f 0
          = if t < traw then (mel.getD f []).getD t 0 else 0) := by
  have h2 : target.length ≠ 2 := by omega
  set T := target.getD 1 0 with hT
  set padded := mel.map (padTruncRow T) with hpadded
  have hheadlen : (padded.headD []).length = T := by
    cases mel with
    | nil => exact absurd hpos (by simp)
    | cons m0 rest => simp [hpadded, padTruncRow_length]
  have hplen : padded.length = mel.length := by simp [hpadded]
  refine ⟨[transposeM padded], ?_, rfl, ?_, ?_, ?_⟩
  · unfold preprocess_audio_for_model
    rw [if_neg h2, if_pos hrank]
  · show (transposeM padded).length = T
    unfold transposeM
    rw [List.length_map, List.length_range]
    exact hheadlen
  · intro row hrow
    simp only [List.getD_cons_zero] at hrow
    unfold transposeM at hrow
    rcases List.mem_map.mp hrow with ⟨j, _, hj⟩
    rw [← hj, List.length_map, hplen, hmels]
  · intro t ht f hf
    have hf' : f < mel.length := hmels ▸ hf
    have h1 : ((transposeM padded).getD t []) = padded.map (fun r => r.getD t 0) := by
      unfold transposeM
      exact getD_map_range _ _ _ (hheadlen ▸ ht)
    have h2' : (padded.map (fun r => r.getD t 0)).getD f 0
        = (padded.getD f []).getD t 0 :=
      getD_map_of_lt padded (fun r => r.getD t 0) 0 [] (hplen ▸ hf')
    have h3 : padded.getD f [] = padTruncRow T (mel.getD f []) :=
      getD_map_of_lt mel (padTruncRow T) [] [] hf'
    have hrowlen : (mel.getD f []).length = traw := by
      apply hrect
      rw [List.getD_eq_getElem?_getD, List.getElem?_eq_getElem hf']
      exact List.getElem_mem hf'
    simp only [List.getD_cons_zero, h1, h2', h3]
    rw [padTruncRow_getD T _ ht, hrowlen]

theorem audio_rank3_pad_truncate_witness :
    (([1, 3, 2] : List Nat).length = 3 ∧
      ([[5, 6], [7, 8]] : List (List ℚ)).length = ([1, 3, 2] : List Nat).getD 2 0 ∧
      0 < ([[5, 6], [7, 8]] : List (List ℚ)).length ∧
      (∀ row ∈ ([[5, 6], [7, 8]] : List (List ℚ)), row.length = 2)) ∧
    ∃ d : List (List (List ℚ)),
      preprocess_audio_for_model [1, 3, 2] [] [[5, 6], [7, 8]]
          = .ok (.rank3 d, .float32) ∧
      d.length = 1 ∧
      (d.getD 0 []).length = ([1, 3, 2] : List Nat).getD 1 0 ∧
      (∀ row ∈ d.getD 0 [], row.length = ([1, 3, 2] : List Nat).getD 2 0) ∧
      (∀ t < ([1, 3, 2] : List Nat).getD 1 0, ∀ f < ([1, 3, 2] : List Nat).getD 2 0,
        ((d.getD 0 []).getD t []).getD f 0
          = if t < 2 then (([[5, 6], [7, 8]] : List (List ℚ)).getD f []).getD t 0
            else 0) :=
  ⟨⟨rfl, rfl, by norm_num, by
      intro row hrow
      rcases List.mem_cons.mp hrow with h | h
      · simp [h]
      · rcases List.mem_cons.mp h with h2 | h2
        · simp [h2]
        · cases h2⟩,
    audio_rank3_pad_truncate [1, 3, 2] [] [[5, 6], [7, 8]] 2 rfl rfl (by norm_num)
      (by
        intro row hrow
        rcases List.mem_cons.mp hrow with h | h
        · simp [h]
        · rcases List.mem_cons.mp h with h2 | h2
          · simp [h2]
          · cases h2)⟩

theorem foldl_min_le_init (l : List ℚ) (a : ℚ) : l.foldl min a ≤ a := by
  induction l generalizing a with
  | nil => exact le_refl a
  | cons x xs ih => exact le_trans (ih (min a x)) (min_le_left a x)

theorem foldl_min_le_mem {x : ℚ} :
    ∀ (l : List ℚ) (a : ℚ), x ∈ l → l.foldl min a ≤ x := by
  intro l
  induction l with
  | nil => intro a hx; cases hx
  | cons y ys ih =>
    intro a hx
    rcases List.mem_cons.mp hx with rfl | hmem
    · exact le_trans (foldl_min_le_init ys (min a x)) (min_le_right a x)
    · exact ih (min a y) hmem

theorem npMin_le_mem {x : ℚ} {l : List ℚ} (hx : x ∈ l) : npMin l ≤ x := by
  cases l with
  | nil => cases hx
  | cons y ys =>
    rcases List.mem_cons.mp hx with rfl | hmem
    · exact foldl_min_le_init ys x
    · exact foldl_min_le_mem ys y hmem

theorem le_foldl_max_init (l : List ℚ) (a : ℚ) : a ≤ l.foldl max a := by
  induction l generalizing a with
  | nil => exact le_refl a
  | cons x xs ih => exact le_trans (le_max_left a x) (ih (max a x))

theorem le_foldl_max_mem {x : ℚ} :
    ∀ (l : List ℚ) (a : ℚ), x ∈ l → x ≤ l.foldl max a := by
  intro l
  induction l with
  | nil => intro a hx; cases hx
  | cons y ys ih =>
    intro a hx
    rcases List.mem_cons.mp hx with rfl | hmem
    · exact le_trans (le_max_right a x) (le_foldl_max_init ys (max a x))
    · exact ih (max a y) hmem

theorem mem_le_npMax {x : ℚ} {l : List ℚ} (hx : x ∈ l) : x ≤ npMax l := by
  cases l with
  | nil => cases hx
  | cons y ys =>
    rcases List.mem_cons.mp hx with rfl | hmem
    · exact le_foldl_max_init ys x
    · exact le_foldl_max_mem ys y hmem

theorem mul_length_le_sum {a : ℚ} :
    ∀ {l : List ℚ}, (∀ x ∈ l, a ≤ x) → a * l.length ≤ l.sum := by
  intro l
  induction l with
  | nil => simp
  | cons x xs ih =>
    intro h
    have hx := h x (List.mem_cons_self x xs)
    have hxs := ih (fun y hy => h y (List.mem_cons_of_mem x hy))
    simp only [List.sum_cons, List.length_cons, Nat.cast_add, Nat.cast_one]
    have he : a * ((xs.length : ℚ) + 1) = a * xs.length + a := by ring
    rw [he]
    linarith

theorem sum_le_mul_length {b : ℚ} :
    ∀ {l : List ℚ}, (∀ x ∈ l, x ≤ b) → l.sum ≤ b * l.length := by
  intro l
  induction l with
  | nil => simp
  | cons x xs ih =>
    intro h
    have hx := h x (List.mem_cons_self x xs)
    have hxs := ih (fun y hy => h y (List.mem_cons_of_mem x hy))
    simp only [List.sum_cons, List.length_cons, Nat.cast_add, Nat.cast_one]
    have he : b * ((xs.length : ℚ) + 1) = b * xs.length + b := by ring
    rw [he]
    linarith

theorem npMin_le_npMean {l : List ℚ} (hl : l ≠ []) : npMin l ≤ npMean l := by
  have hn : 0 < (l.length : ℚ) := by exact_mod_cast List.length_pos.mpr hl
  rw [npMean, le_div_iff₀ hn]
  exact mul_length_le_sum (fun x hx => npMin_le_mem hx)

theorem npMean_le_npMax {l : List ℚ} (hl : l ≠ []) : npMean l ≤ npMax l := by
  have hn : 0 < (l.length : ℚ) := by exact_mod_cast List.length_pos.mpr hl
  rw [npMean, div_le_iff₀ hn]
  exact sum_le_mul_length (fun x hx => mem_le_npMax hx)

theorem getD_le_getD_of_sorted {s : List ℚ} (hs : s.Sorted (· ≤ ·)) {i j : Nat}
    (hij : i ≤ j) (hj : j < s.length) : s.getD i 0 ≤ s.getD j 0 := by
  have hi : i < s.length := Nat.lt_of_le_of_lt hij hj
  rcases Nat.eq_or_lt_of_le hij with rfl | hlt
  · exact le_refl _
  · rw [List.getD_eq_getElem?_getD, List.getElem?_eq_getElem hi,
      List.getD_eq_getElem?_getD, List.getElem?_eq_getElem hj]
    have h := hs.rel_get_of_lt (a := ⟨i, hi⟩) (b := ⟨j, hj⟩) (Fin.mk_lt_mk.mpr hlt)
    simpa using h

theorem interpAt_mono (s : List ℚ) (hs : s.Sorted (· ≤ ·)) (hne : s ≠ [])
    (h1 h2 : ℚ) (h1n : 0 ≤ h1) (h12 : h1 ≤ h2)
    (h2n : h2 ≤ (s.length : ℚ) - 1) : interpAt s h1 ≤ interpAt s h2 := by
  have hn1 : 1 ≤ s.length := List.length_pos.mpr hne
  have hf1 : (0 : ℤ) ≤ ⌊h1⌋ := Int.floor_nonneg.mpr h1n
  have hf2 : (0 : ℤ) ≤ ⌊h2⌋ := le_trans hf1 (Int.floor_le_floor h12)
  obtain ⟨i1, e1⟩ : ∃ k : Nat, (k : ℤ) = ⌊h1⌋ := ⟨(⌊h1⌋).toNat, Int.toNat_of_nonneg hf1⟩
  obtain ⟨i2, e2⟩ : ∃ k : Nat, (k : ℤ) = ⌊h2⌋ := ⟨(⌊h2⌋).toNat, Int.toNat_of_nonneg hf2⟩
  have ht1 : (⌊h1⌋).toNat = i1 := by omega
  have ht2 : (⌊h2⌋).toNat = i2 := by omega
  have q1lo : (i1 : ℚ) ≤ h1 := by
    have h := Int.floor_le h1
    rw [← e1] at h
    exact_mod_cast h
  have q1hi : h1 < (i1 : ℚ) + 1 := by
    have h := Int.lt_floor_add_one h1
    rw [← e1] at h
    exact_mod_cast h
  have q2lo : (i2 : ℚ) ≤ h2 := by
    have h := Int.floor_le h2
    rw [← e2] at h
    exact_mod_cast h
  have hi12 : i1 ≤ i2 := by
    have h := Int.floor_le_floor h12
    rw [← e1, ← e2] at h
    exact_mod_cast h
  have hi2n : i2 ≤ s.length - 1 := by
    have hfl : (⌊h2⌋ : ℚ) ≤ (s.length : ℚ) - 1 := le_trans (Int.floor_le h2) h2n
    rw [← e2] at hfl
    have : (i2 : ℤ) ≤ (s.length : ℤ) - 1 := by exact_mod_cast hfl
    omega
  have hi1n : i1 ≤ s.length - 1 := le_trans hi12 hi2n
  have hloS : ∀ i : Nat, i ≤ s.length - 1 →
      s.getD i 0 ≤ s.getD (min (i + 1) (s.length - 1)) 0 := by
    intro i hi
    exact getD_le_getD_of_sorted hs (by omega) (by omega)
  simp only [interpAt, ht1, ht2]
  rcases Nat.lt_or_ge i1 i2 with hlt | hge
  · have hmin1 : min (i1 + 1) (s.length - 1) = i1 + 1 := Nat.min_eq_left (by omega)
    have s1 : s.getD i1 0 ≤ s.getD (i1 + 1) 0 := by
      have h := hloS i1 hi1n
      rwa [hmin1] at h
    have s2 : s.getD (i1 + 1) 0 ≤ s.getD i2 0 :=
      getD_le_getD_of_sorted hs (by omega) (by omega)
    have s3 : s.getD i2 0 ≤ s.getD (min (i2 + 1) (s.length - 1)) 0 := hloS i2 hi2n
    have b1 : s.getD i1 0
        + (h1 - (i1 : ℚ)) * (s.getD (min (i1 + 1) (s.length - 1)) 0 - s.getD i1 0)
        ≤ s.getD (i1 + 1) 0 := by
      rw [hmin1]
      nlinarith [s1, q1lo, q1hi]
    have b2 : s.getD i2 0 ≤ s.getD i2 0
        + (h2 - (i2 : ℚ)) * (s.getD (min (i2 + 1) (s.length - 1)) 0 - s.getD i2 0) := by
      nlinarith [s3, q2lo]
    linarith
  · have heq : i2 = i1 := le_antisymm hge hi12
    subst heq
    have hlohi := hloS i2 hi1n
    nlinarith [hlohi, h12]

theorem npPercentile_mono (l : List ℚ) (hl : l ≠ []) {q1 q2 : ℚ}
    (h0 : 0 ≤ q1) (h12 : q1 ≤ q2) (h100 : q2 ≤ 100) :
    npPercentile l q1 ≤ npPercentile l q2 := by
  simp only [npPercentile]
  have hs : (l.insertionSort (· ≤ ·)).Sorted (· ≤ ·) :=
    List.sorted_insertionSort (· ≤ ·) l
  have hlen : (l.insertionSort (· ≤ ·)).length = l.length :=
    List.length_insertionSort (· ≤ ·) l
  have hne : l.insertionSort (· ≤ ·) ≠ [] := by
    intro h
    apply hl
    apply List.length_eq_zero.mp
    rw [← hlen, h]
    rfl
  have hn1 : 1 ≤ (l.insertionSort (· ≤ ·)).length := List.length_pos.mpr hne
  have hnn : (0 : ℚ) ≤ ((l.insertionSort (· ≤ ·)).length : ℚ) - 1 := by
    have h : (1 : ℚ) ≤ ((l.insertionSort (· ≤ ·)).length : ℚ) := by exact_mod_cast hn1
    linarith
  apply interpAt_mono _ hs hne
  · exact mul_nonneg (div_nonneg h0 (by norm_num)) hnn
  · exact mul_le_mul_of_nonneg_right
      ((div_le_div_iff_of_pos_right (by norm_num : (0 : ℚ) < 100)).mpr h12) hnn
  · have hq : q2 / 100 ≤ 1 := by
      rw [div_le_one (by norm_num : (0 : ℚ) < 100)]
      exact h100
    calc q2 / 100 * (((l.insertionSort (· ≤ ·)).length : ℚ) - 1)
        ≤ 1 * (((l.insertionSort (· ≤ ·)).length : ℚ) - 1) :=
          mul_le_mul_of_nonneg_right hq hnn
      _ = ((l.insertionSort (· ≤ ·)).length : ℚ) - 1 := one_mul _

/-- C2: for any non-empty timing sequence, the benchmark's latency statistics
satisfy `min <= mean <= max` and `percentile_95 <= percentile_99`, and the
reported throughput `fps` equals 1 divided by the mean elapsed time in
seconds (equivalently, `1000 / mean_time_ms`, exactly over ℚ). -/
theorem latency_stats_bounds (sqrtQ : ℚ → ℚ) (elapsed : Nat → ℚ)
    (num_iterations warmup_iterations : Nat) (hpos : 1 ≤ num_iterations) :
    (test_inference_speed sqrtQ elapsed num_iterations warmup_iterations).min_time_ms
        ≤ (test_inference_speed sqrtQ elapsed num_iterations warmup_iterations).mean_time_ms ∧
    (test_inference_speed sqrtQ elapsed num_iterations warmup_iterations).mean_time_ms
        ≤ (test_inference_speed sqrtQ elapsed num_iterations warmup_iterations).max_time_ms ∧
    (test_inference_speed sqrtQ elapsed num_iterations warmup_iterations).percentile_95_ms
        ≤ (test_inference_speed sqrtQ elapsed num_iterations warmup_iterations).percentile_99_ms ∧
    (test_inference_speed sqrtQ elapsed num_iterations warmup_iterations).fps
        = 1000 / (test_inference_speed sqrtQ elapsed num_iterations
            warmup_iterations).mean_time_ms := by
  have hne : (List.range num_iterations).map elapsed ≠ [] := by
    intro h
    have hlen := congrArg List.length h
    simp at hlen
    omega
  refine ⟨?_, ?_, ?_, ?_⟩
  · show npMin ((List.range num_iterations).map elapsed) * 1000
        ≤ npMean ((List.range num_iterations).map elapsed) * 1000
    have h := npMin_le_npMean hne
    linarith
  · show npMean ((List.range num_iterations).map elapsed) * 1000
        ≤ npMax ((List.range num_iterations).map elapsed) * 1000
    have h := npMean_le_npMax hne
    linarith
  · show npPercentile ((List.range num_iterations).map elapsed) 95 * 1000
        ≤ npPercentile ((List.range num_iterations).map elapsed) 99 * 1000
    have h := npPercentile_mono _ hne (by norm_num) (by norm_num : (95 : ℚ) ≤ 99)
      (by norm_num)
    linarith
  · show 1 / npMean ((List.range num_iterations).map elapsed)
        = 1000 / (npMean ((List.range num_iterations).map elapsed) * 1000)
    rcases eq_or_ne (npMean ((List.range num_iterations).map elapsed)) 0 with h | h
    · rw [h]
      norm_num
    · field_simp

theorem latency_stats_bounds_witness :
    1 ≤ 1 ∧
    ((test_inference_speed id (fun _ => 1) 1 0).min_time_ms
        ≤ (test_inference_speed id (fun _ => 1) 1 0).mean_time_ms ∧
     (test_inference_speed id (fun _ => 1) 1 0).mean_time_ms
        ≤ (test_inference_speed id (fun _ => 1) 1 0).max_time_ms ∧
     (test_inference_speed id (fun _ => 1) 1 0).percentile_95_ms
        ≤ (test_inference_speed id (fun _ => 1) 1 0).percentile_99_ms ∧
     (test_inference_speed id (fun _ => 1) 1 0).fps
        = 1000 / (test_inference_speed id (fun _ => 1) 1 0).mean_time_ms) :=
  ⟨le_refl 1, latency_stats_bounds id (fun _ => 1) 1 0 (le_refl 1)⟩

theorem allcloseList_iff (rtol atol : ℚ) :
    ∀ (a b : List ℚ),
      allcloseList rtol atol a b = true ↔
        ∀ j, j < min a.length b.length →
          |a.getD j 0 - b.getD j 0| ≤ atol + rtol * |b.getD j 0| := by
  intro a
  induction a with
  | nil => intro b; simp [allcloseList]
  | cons x xs ih =>
    intro b
    cases b with
    | nil => simp [allcloseList]
    | cons y ys =>
      rw [show allcloseList rtol atol (x :: xs) (y :: ys)
          = (isCloseQ rtol atol x y && allcloseList rtol atol xs ys) from rfl]
      rw [Bool.and_eq_true]
      constructor
      · rintro ⟨h0, hrest⟩ j hj
        cases j with
        | zero => simpa [isCloseQ] using h0
        | succ k =>
          have hk : k < min xs.length ys.length := by
            rw [Nat.lt_min] at hj ⊢
            constructor
            · have := hj.1; simp at this; omega
            · have := hj.2; simp at this; omega
          have h := (ih ys).mp hrest k hk
          simpa using h
      · intro h
        constructor
        · have h0 := h 0 (by rw [Nat.lt_min]; constructor <;> simp)
          simpa [isCloseQ] using h0
        · apply (ih ys).mpr
          intro k hk
          rw [Nat.lt_min] at hk
          have hsucc := h (k + 1) (by rw [Nat.lt_min]; constructor <;> simp <;> omega)
          simpa using hsucc

/-- C1: with `num_tests ≥ 2` repeated inferences on the fixed seeded input,
the stability check reports `is_deterministic = true` exactly when the first
collected output matches every subsequent output elementwise within absolute
tolerance `1e-7` and relative tolerance `1e-7` (the `np.allclose` predicate
`|first - later| ≤ atol + rtol * |later|`). -/
theorem stability_deterministic_iff (sqrtQ : ℚ → ℚ) (runOut : Nat → List ℚ)
    (num_tests : Nat) (hn : 2 ≤ num_tests)
    (hlen : ∀ k < num_tests, (runOut k).length = (runOut 0).length) :
    (test_numerical_stability sqrtQ runOut num_tests).is_deterministic = true ↔
      ∀ k, 1 ≤ k → k < num_tests → ∀ j < (runOut 0).length,
        |(runOut 0).getD j 0 - (runOut k).getD j 0|
          ≤ 1 / 10 ^ 7 + 1 / 10 ^ 7 * |(runOut k).getD j 0| := by
  obtain ⟨m, rfl⟩ : ∃ m, num_tests = m + 1 := ⟨num_tests - 1, by omega⟩
  have hhead : ((List.range (m + 1)).map runOut).headD [] = runOut 0 := by
    rw [List.range_succ_eq_map]
    rfl
  have htail : ((List.range (m + 1)).map runOut).tail
      = (List.range m).map (fun j => runOut (j + 1)) := by
    rw [List.range_succ_eq_map]
    simp [List.map_map]
  show (((List.range (m + 1)).map runOut).tail.all
      (fun b => allcloseList (1 / 10 ^ 7) (1 / 10 ^ 7)
        (((List.range (m + 1)).map runOut).headD []) b)) = true ↔ _
  rw [htail, hhead, List.all_eq_true]
  constructor
  · intro h k hk1 hk2 j hj
    have hb : runOut k ∈ (List.range m).map (fun j => runOut (j + 1)) := by
      apply List.mem_map.mpr
      exact ⟨k - 1, List.mem_range.mpr (by omega), by congr 1; omega⟩
    have hk' : k < m + 1 := hk2
    have hmin : j < min (runOut 0).length (runOut k).length := by
      rw [Nat.lt_min]
      exact ⟨hj, by rw [hlen k hk']; exact hj⟩
    exact (allcloseList_iff _ _ _ _).mp (h _ hb) j hmin
  · intro h b hb
    rcases List.mem_map.mp hb with ⟨jj, hjjm, rfl⟩
    apply (allcloseList_iff _ _ _ _).mpr
    intro j hj
    rw [Nat.lt_min] at hj
    exact h (jj + 1) (by omega)
      (by have := List.mem_range.mp hjjm; omega) j hj.1

theorem stability_deterministic_iff_witness :
    2 ≤ 2 ∧
    ((test_numerical_stability id (fun _ => [(0 : ℚ)]) 2).is_deterministic = true ↔
      ∀ k, 1 ≤ k → k < 2 → ∀ j < ([(0 : ℚ)] : List ℚ).length,
        |([(0 : ℚ)] : List ℚ).getD j 0 - ([(0 : ℚ)] : List ℚ).getD j 0|
          ≤ 1 / 10 ^ 7 + 1 / 10 ^ 7 * |([(0 : ℚ)] : List ℚ).getD j 0|) :=
  ⟨le_refl 2, stability_deterministic_iff id (fun _ => [(0 : ℚ)]) 2 (le_refl 2)
    (fun _ _ => rfl)⟩

end EcoVision
